import Mathlib

-- Verification of the callback-driven training-loop controller described in
-- the fastbook chapter 18 notebook (src/18_callbacks.ipynb).
--
-- The per-batch body is embedded from the source snippet:
--   try:
--       self._split(b);                                  self('begin_batch')
--       self.pred = self.model(*self.xb);                self('after_pred')
--       self.loss = self.loss_func(self.pred, *self.yb); self('after_loss')
--       if not self.training: return
--       self.loss.backward();                            self('after_backward')
--       self.opt.step();                                 self('after_step')
--       self.opt.zero_grad()
--   except CancelBatchException:                         self('after_cancel_batch')
--   finally:                                             self('after_batch')
-- The outer phases (train/validate/epoch/fit), the callback registry and the
-- attribute forwarding are not present as code in the repository; they are
-- modelled from the spec where noted.

set_option maxRecDepth 4000

namespace FastbookCb

/-- The fixed closed set of callback events listed in the notebook. -/
inductive Event
  | begin_fit | begin_epoch | begin_train | begin_batch
  | after_pred | after_loss | after_backward | after_step
  | after_batch | after_cancel_batch | after_train | after_cancel_train
  | begin_validate | after_validate | after_cancel_valid
  | after_epoch | after_cancel_epoch | after_fit | after_cancel_fit
deriving DecidableEq, Repr

/-- The five control-flow cancellation granularities (tagged variant cases
Batch, Train, Valid, Epoch, Fit). -/
inductive ControlFlowSignal
  | Batch | Train | Valid | Epoch | Fit
deriving DecidableEq, Repr

/-- An exception escaping a handler: either one of the five recognized
control-flow signals, or an arbitrary unrecognized exception (tagged with a
code standing in for its payload). -/
inductive Exn
  | signal (s : ControlFlowSignal)
  | other (code : Nat)
deriving DecidableEq, Repr

/-- Source name for the Batch-granularity signal raised by callbacks. -/
def CancelBatchException : Exn := .signal .Batch

/-- Source name for the Train-granularity signal. -/
def CancelTrainException : Exn := .signal .Train

/-- Source name for the Valid-granularity signal. -/
def CancelValidException : Exn := .signal .Valid

/-- Source name for the Epoch-granularity signal. -/
def CancelEpochException : Exn := .signal .Epoch

/-- Source name for the Fit-granularity signal raised e.g. by
TerminateOnNaNCallback. -/
def CancelFitException : Exn := .signal .Fit

/-- Optimizer operations performed by the loop (opt.step / opt.zero_grad). -/
inductive OptOp
  | step | zeroGrad
deriving DecidableEq, Repr

/-- Result of running a fragment of the loop: the events fired, the optimizer
operations executed, the final shared state, and the exception escaping the
fragment (none when it completed or recovered). -/
structure RunRes (σ : Type) where
  trace : List Event
  ops : List OptOp
  state : σ
  exn : Option Exn
deriving Repr

/-- The training machinery the loop body drives.  dispatch fires one event,
returning the mutated shared state and any exception a handler raised; the
remaining fields are the computational steps of the source loop (split,
forward pass, loss computation, backward pass, optimizer step, gradient
zeroing) plus the training-mode flag read by the loop. -/
structure Mach (σ : Type) where
  dispatch : Event → σ → σ × Option Exn
  split : Nat → σ → σ
  forward : σ → σ
  computeLoss : σ → σ
  backward : σ → σ
  optStep : σ → σ
  zeroGrad : σ → σ
  training : σ → Bool

variable {σ : Type}

/-- The try-block of the per-batch source snippet: split, begin_batch,
forward, after_pred, loss, after_loss, the validation early return, backward,
after_backward, opt.step, after_step, opt.zero_grad.  Each branch records the
events fired so far and the exception aborting the block, if any. -/
def tryBlock (m : Mach σ) (b : Nat) (s0 : σ) : RunRes σ :=
  match m.dispatch .begin_batch (m.split b s0) with
  | (s1, some e) => ⟨[.begin_batch], [], s1, some e⟩
  | (s1, none) =>
    match m.dispatch .after_pred (m.forward s1) with
    | (s2, some e) => ⟨[.begin_batch, .after_pred], [], s2, some e⟩
    | (s2, none) =>
      match m.dispatch .after_loss (m.computeLoss s2) with
      | (s3, some e) => ⟨[.begin_batch, .after_pred, .after_loss], [], s3, some e⟩
      | (s3, none) =>
        if m.training s3 then
          match m.dispatch .after_backward (m.backward s3) with
          | (s4, some e) =>
              ⟨[.begin_batch, .after_pred, .after_loss, .after_backward],
               [], s4, some e⟩
          | (s4, none) =>
            match m.dispatch .after_step (m.optStep s4) with
            | (s5, some e) =>
                ⟨[.begin_batch, .after_pred, .after_loss, .after_backward,
                  .after_step], [.step], s5, some e⟩
            | (s5, none) =>
                ⟨[.begin_batch, .after_pred, .after_loss, .after_backward,
                  .after_step], [.step, .zeroGrad], m.zeroGrad s5, none⟩
        else ⟨[.begin_batch, .after_pred, .after_loss], [], s3, none⟩

/-- The full per-batch body from the source: the try-block, the
"except CancelBatchException: self('after_cancel_batch')" clause which
swallows exactly the Batch signal, and the "finally: self('after_batch')"
clause which fires on every exit path; an exception raised by the finally
dispatch replaces the pending one, as in Python. -/
def oneBatch (m : Mach σ) (b : Nat) (s0 : σ) : RunRes σ :=
  let t := tryBlock m b s0
  let h : RunRes σ :=
    if t.exn = some CancelBatchException then
      let d := m.dispatch .after_cancel_batch t.state
      ⟨t.trace ++ [.after_cancel_batch], t.ops, d.1, d.2⟩
    else t
  let f := m.dispatch .after_batch h.state
  ⟨h.trace ++ [.after_batch], h.ops, f.1, if f.2.isSome then f.2 else h.exn⟩

/-- Sequencing of loop fragments: if the first fragment escapes with an
exception the second never runs; otherwise the second continues from the
first one's state and their traces and operation lists concatenate. -/
def andThen (a : RunRes σ) (f : σ → RunRes σ) : RunRes σ :=
  match a.exn with
  | some _ => a
  | none => ⟨a.trace ++ (f a.state).trace, a.ops ++ (f a.state).ops,
             (f a.state).state, (f a.state).exn⟩

/-- Modelled from the spec: iteration of the per-batch body over the batches
drawn from the current data loader ("for each training batch" / "for each
validation batch" in section 4.4); an exception escaping a batch stops the
iteration and propagates. -/
def allBatches (m : Mach σ) : List Nat → σ → RunRes σ
  | [], s => ⟨[], [], s, none⟩
  | b :: bs, s => andThen (oneBatch m b s) (allBatches m bs)

/-- Modelled from the spec: one phase of the loop of section 4.4.  The phase
fires its begin event and runs its body inside a try; a control-flow signal of
exactly the granularity this phase catches triggers the recovery event; the
terminal event then fires unless an exception is still escaping (unrecognized
exceptions and signals of other granularities propagate with no further
events, section 7). -/
def phase (m : Mach σ) (bEv : Event) (body : σ → RunRes σ)
    (sig : ControlFlowSignal) (cEv aEv : Event) (s0 : σ) : RunRes σ :=
  let d0 := m.dispatch bEv s0
  let t : RunRes σ :=
    match d0.2 with
    | some e => ⟨[bEv], [], d0.1, some e⟩
    | none =>
      let r := body d0.1
      ⟨bEv :: r.trace, r.ops, r.state, r.exn⟩
  let h : RunRes σ :=
    if t.exn = some (Exn.signal sig) then
      let d := m.dispatch cEv t.state
      ⟨t.trace ++ [cEv], t.ops, d.1, d.2⟩
    else t
  if h.exn = none then
    let f := m.dispatch aEv h.state
    ⟨h.trace ++ [aEv], h.ops, f.1, f.2⟩
  else h

/-- Modelled from the spec: the training part of an epoch (begin_train, the
training batches, CancelTrainException caught to after_cancel_train, then
after_train). -/
def trainPhase (m : Mach σ) (tb : List Nat) (s : σ) : RunRes σ :=
  phase m .begin_train (allBatches m tb) .Train .after_cancel_train .after_train s

/-- Modelled from the spec: the validation part of an epoch (begin_validate,
the validation batches, CancelValidException caught to after_cancel_valid,
then after_validate). -/
def validPhase (m : Mach σ) (vb : List Nat) (s : σ) : RunRes σ :=
  phase m .begin_validate (allBatches m vb) .Valid .after_cancel_valid .after_validate s

/-- Batch lists for one epoch: the training batches and the validation
batches. -/
abbrev EpochSpec : Type := List Nat × List Nat

/-- Modelled from the spec: one epoch (begin_epoch, training part then
validation part, CancelEpochException caught to after_cancel_epoch, then
after_epoch). -/
def oneEpoch (m : Mach σ) (tb vb : List Nat) (s : σ) : RunRes σ :=
  phase m .begin_epoch
    (fun s1 => andThen (trainPhase m tb s1) (validPhase m vb))
    .Epoch .after_cancel_epoch .after_epoch s

/-- Modelled from the spec: iteration over the epochs of the run; an
exception escaping an epoch stops the iteration and propagates. -/
def allEpochs (m : Mach σ) : List EpochSpec → σ → RunRes σ
  | [], s => ⟨[], [], s, none⟩
  | e :: es, s => andThen (oneEpoch m e.1 e.2 s) (allEpochs m es)

/-- Modelled from the spec: the whole run (begin_fit, all epochs,
CancelFitException caught to after_cancel_fit, then after_fit). -/
def fitRun (m : Mach σ) (eps : List EpochSpec) (s : σ) : RunRes σ :=
  phase m .begin_fit (allEpochs m eps) .Fit .after_cancel_fit .after_fit s

/-- Modelled from the spec: the dispatcher of section 4.3.  For one event it
walks the resolved callback order; a callback with no handler for the event
is skipped; a handler that raises stops the iteration and the exception
propagates; effects of handlers already run are kept.  Returns the list of
callbacks actually invoked, the final state and the escaping exception. -/
def dispatchList (hs : Nat → Option (σ → σ × Option Exn)) :
    List Nat → σ → List Nat × σ × Option Exn
  | [], s => ([], s, none)
  | c :: cs, s =>
    match hs c with
    | none => dispatchList hs cs s
    | some f =>
      match f s with
      | (s1, some e) => ([c], s1, some e)
      | (s1, none) =>
        let r := dispatchList hs cs s1
        (c :: r.1, r.2.1, r.2.2)

/-- A registered callback: its identity plus the declared ordering
constraints (run_before / run_after lists of other callback identities), as
in the TerminateOnNaNCallback source (run_before=Recorder). -/
structure CB where
  id : Nat
  runBefore : List Nat
  runAfter : List Nat
deriving DecidableEq, Repr

/-- Identities of the registered callbacks in registration order. -/
def idsOf (cbs : List CB) : List Nat := cbs.map (·.id)

/-- Modelled from the spec: the constraint graph of section 4.2.  An edge
(a, b) means "a must run before b"; run_before of a callback contributes
edges out of it, run_after contributes edges into it; constraints naming an
unregistered identity are ignored. -/
def edgesOf (cbs : List CB) : List (Nat × Nat) :=
  (cbs.map fun c =>
    (c.runBefore.filter fun v => decide (v ∈ idsOf cbs)).map (fun v => (c.id, v))
      ++ (c.runAfter.filter fun v => decide (v ∈ idsOf cbs)).map (fun v => (v, c.id))).flatten

/-- Whether x still has a predecessor among the remaining callbacks. -/
def hasPred (edges : List (Nat × Nat)) (rem : List Nat) (x : Nat) : Bool :=
  rem.any fun y => decide ((y, x) ∈ edges)

/-- The first remaining callback (in registration order) with no remaining
predecessor: the stable tie-break of section 4.2. -/
def pickSrc (edges : List (Nat × Nat)) (rem : List Nat) : Option Nat :=
  rem.find? fun x => ! hasPred edges rem x

/-- Modelled from the spec: stable topological sort (Kahn's algorithm with
registration-order tie-break); none signals a cycle. -/
def kahn (edges : List (Nat × Nat)) : Nat → List Nat → Option (List Nat)
  | _, [] => some []
  | 0, _ :: _ => none
  | fuel+1, x :: rest =>
    match pickSrc edges (x :: rest) with
    | none => none
    | some y => (kahn edges fuel ((x :: rest).erase y)).map (y :: ·)

/-- Modelled from the spec: CallbackRegistry resolution of the registered
callbacks into a total order; none is the fatal configuration error for a
cyclic constraint set. -/
def resolve (cbs : List CB) : Option (List Nat) :=
  kahn (edgesOf cbs) cbs.length (idsOf cbs)

/-- The "must run before" relation declared by the constraints. -/
abbrev edgeRel (cbs : List CB) (a b : Nat) : Prop := (a, b) ∈ edgesOf cbs

/-- The constraint set has no cycle: no identity reaches itself through a
nonempty chain of must-run-before constraints. -/
def Acyclic (cbs : List CB) : Prop :=
  ∀ a, ¬ Relation.TransGen (edgeRel cbs) a a

/-- Modelled from the spec: a run first resolves the registry; a cyclic
constraint set fails before any event is dispatched and no training work
happens (none), otherwise the loop runs with the resolved order. -/
def setupAndFit (cbs : List CB) (mk : List Nat → Mach σ)
    (eps : List EpochSpec) (s0 : σ) : Option (RunRes σ) :=
  (resolve cbs).map fun ord => fitRun (mk ord) eps s0

/-- The shared TrainingState for the attribute-forwarding model: a record of
named fields. -/
def TState : Type := String → Nat

/-- A callback object with its own local fields (a bare assignment creates a
local field on the callback, never touching the shared state). -/
structure CbObj where
  locals : String → Option Nat

/-- Modelled from the spec: attribute read on a callback, first checking the
callback's local fields, else forwarding to the shared state (the notebook's
"a Callback will always try to get an attribute it doesn't have inside the
Learner associated to it"). -/
def cbGet (cb : CbObj) (st : TState) (n : String) : Nat :=
  match cb.locals n with
  | some v => v
  | none => st n

/-- Write through the explicit shared-state reference (self.learn.loss = v in
the RNNRegularizer source): updates the shared field. -/
def stateSet (st : TState) (n : String) (v : Nat) : TState :=
  fun w => if w = n then v else st w

/-- Modelled from the spec: a bare assignment self.n = v on the callback
creates or updates a local field on the callback object and leaves the
shared state untouched. -/
def bareAssign (cb : CbObj) (st : TState) (n : String) (v : Nat) :
    CbObj × TState :=
  (⟨fun w => if w = n then some v else cb.locals w⟩, st)

/-- A batch value: a scalar or a tuple of values. -/
inductive Val
  | atom (n : Nat)
  | tup (vs : List Val)

/-- Modelled from the spec: the derived de-tupled view of a stored batch
tuple ("xb is always a tuple (potentially with one element) and x is
detuplified"): the sole element when the tuple has exactly one element,
otherwise the tuple itself. -/
def detuplify (xb : List Val) : Val :=
  match xb with
  | [v] => v
  | vs => .tup vs

/-- The dual-form batch fields of the training state: the stored tuple forms
xb and yb (the only writable forms). -/
structure BatchState where
  xb : List Val
  yb : List Val

/-- The derived de-tupled input view x. -/
def x (s : BatchState) : Val := detuplify s.xb

/-- The derived de-tupled target view y. -/
def y (s : BatchState) : Val := detuplify s.yb

/-- Assignment to the tuple-form input field xb, the only way to write the
input batch. -/
def setXb (s : BatchState) (t : List Val) : BatchState := { s with xb := t }

/-- Assignment to the tuple-form target field yb. -/
def setYb (s : BatchState) (t : List Val) : BatchState := { s with yb := t }

/-- A machine whose after_pred handler raises CancelBatchException. -/
def mBC : Mach Nat :=
  ⟨fun e s => (s, if e = .after_pred then some CancelBatchException else none),
   fun _ s => s, id, id, id, id, id, fun _ => true⟩

/-- A machine whose after_pred handler raises an unrecognized exception. -/
def mOther : Mach Nat :=
  ⟨fun e s => (s, if e = .after_pred then some (.other 7) else none),
   fun _ s => s, id, id, id, id, id, fun _ => true⟩

/-- A machine in validation mode: no handler raises and the training flag is
false. -/
def mVal : Mach Nat :=
  ⟨fun _ s => (s, none), fun _ s => s, id, id, id, id, id, fun _ => false⟩

/-- A machine tracking (epoch counter, training flag); begin_epoch bumps the
counter, begin_train / begin_validate set the flag, and the after_loss
handler raises CancelFitException during training of epoch 2. -/
def mFit : Mach (Nat × Bool) :=
  ⟨fun e s =>
    match e with
    | .begin_epoch => ((s.1 + 1, s.2), none)
    | .begin_train => ((s.1, true), none)
    | .begin_validate => ((s.1, false), none)
    | .after_loss =>
        (s, if s.1 = 2 ∧ s.2 = true then some CancelFitException else none)
    | _ => (s, none),
   fun _ s => s, id, id, id, id, id, fun s => s.2⟩

/-- Callback A: must run after B. -/
def cbA : CB := ⟨0, [], [1]⟩

/-- Callback B: no constraints. -/
def cbB : CB := ⟨1, [], []⟩

/-- The registration [A (must run after B), B] of the end-to-end scenario. -/
def cbsAB : List CB := [cbA, cbB]

/-- A cyclic registration: A before B and B before A. -/
def cbsCyc : List CB := [⟨0, [1], []⟩, ⟨1, [0], []⟩]

/-- begin_fit handlers for the scenario: every callback defines one; the
handler records the invocation by bumping the state. -/
def hsBF : Nat → Option (Nat → Nat × Option Exn) :=
  fun _ => some (fun s => (s + 1, none))

/-- A callback object with no local fields. -/
def cb0 : CbObj := ⟨fun _ => none⟩

/-- A shared state with all fields zero. -/
def st0 : TState := fun _ => 0

/-- A handler raising an Epoch signal, for exercising the dispatcher. -/
def fC7 : Nat → Nat × Option Exn := fun s => (s, some (.signal .Epoch))

/-- A handler table where callback 9 raises and every other callback
increments the state. -/
def hsC7 : Nat → Option (Nat → Nat × Option Exn) :=
  fun c => if c = 9 then some fC7 else some (fun s => (s + 1, none))

theorem andThen_of_exn_some (a : RunRes σ) (f : σ → RunRes σ) (e : Exn)
    (h : a.exn = some e) : andThen a f = a := by
  unfold andThen
  rw [h]

theorem andThen_of_exn_none (a : RunRes σ) (f : σ → RunRes σ)
    (h : a.exn = none) :
    andThen a f = ⟨a.trace ++ (f a.state).trace, a.ops ++ (f a.state).ops,
                   (f a.state).state, (f a.state).exn⟩ := by
  unfold andThen
  rw [h]

theorem andThen_assoc (a : RunRes σ) (f g : σ → RunRes σ) :
    andThen (andThen a f) g = andThen a (fun s => andThen (f s) g) := by
  cases ha : a.exn with
  | some e =>
      rw [andThen_of_exn_some a f e ha, andThen_of_exn_some a g e ha,
        andThen_of_exn_some a (fun s => andThen (f s) g) e ha]
  | none =>
      rw [andThen_of_exn_none a f ha, andThen_of_exn_none a _ ha]
      cases hf : (f a.state).exn with
      | some e =>
          rw [andThen_of_exn_some _ g e hf]
          simp [andThen, hf]
      | none =>
          rw [andThen_of_exn_none _ g hf]
          simp [andThen, hf, List.append_assoc]

theorem allBatches_append (m : Mach σ) (l1 l2 : List Nat) (s : σ) :
    allBatches m (l1 ++ l2) s = andThen (allBatches m l1 s) (allBatches m l2) := by
  induction l1 generalizing s with
  | nil =>
      simp [allBatches, andThen]
  | cons b bs ih =>
      simp only [List.cons_append, allBatches]
      rw [andThen_assoc]
      congr 1
      funext s'
      exact ih s'

theorem allEpochs_append (m : Mach σ) (l1 l2 : List EpochSpec) (s : σ) :
    allEpochs m (l1 ++ l2) s = andThen (allEpochs m l1 s) (allEpochs m l2) := by
  induction l1 generalizing s with
  | nil =>
      simp [allEpochs, andThen]
  | cons e es ih =>
      simp only [List.cons_append, allEpochs]
      rw [andThen_assoc]
      congr 1
      funext s'
      exact ih s'

theorem tryBlock_trace_head (m : Mach σ) (b : Nat) (s : σ) :
    ∃ l, (tryBlock m b s).trace = .begin_batch :: l := by
  unfold tryBlock
  repeat' split
  all_goals exact ⟨_, rfl⟩

theorem oneBatch_trace_head (m : Mach σ) (b : Nat) (s : σ) :
    (oneBatch m b s).trace.head? = some .begin_batch := by
  obtain ⟨l, hl⟩ := tryBlock_trace_head m b s
  simp only [oneBatch]
  split
  · simp [hl]
  · simp [hl]

theorem allBatches_cons_trace_head (m : Mach σ) (b : Nat) (bs : List Nat) (s : σ) :
    (allBatches m (b :: bs) s).trace.head? = some .begin_batch := by
  have h := oneBatch_trace_head m b s
  simp only [allBatches, andThen]
  split
  · exact h
  · rcases hob : (oneBatch m b s).trace with _ | ⟨e, l⟩
    · rw [hob] at h
      simp at h
    · rw [hob] at h
      simp at h
      simp [hob, h]

theorem oneBatch_ops_eq (m : Mach σ) (b : Nat) (s : σ) :
    (oneBatch m b s).ops = (tryBlock m b s).ops := by
  simp only [oneBatch]
  split <;> rfl

theorem tryBlock_count_after_batch (m : Mach σ) (b : Nat) (s : σ) :
    ((tryBlock m b s).trace).count .after_batch = 0 := by
  unfold tryBlock
  repeat' split
  all_goals rfl

theorem oneBatch_count_after_batch (m : Mach σ) (b : Nat) (s : σ) :
    ((oneBatch m b s).trace).count .after_batch = 1 := by
  have h0 := tryBlock_count_after_batch m b s
  simp only [oneBatch]
  split
  · simp [List.count_append, h0]
  · simp [List.count_append, h0]

/-- C1: if a handler raises CancelBatchException during after_pred of a batch
(after any number of earlier batches completed), the remaining steps of that
batch are skipped (no after_loss, after_backward, after_step and no optimizer
operation), the event sequence continues with exactly after_cancel_batch then
after_batch, and the loop proceeds to the next batch, whose first event is
begin_batch. -/
theorem c1_cancel_batch_skips_rest (m : Mach σ) (pre rest : List Nat)
    (b : Nat) (sInit s0 : σ) (tp : List Event) (op : List OptOp)
    (s1 s2 s3 s4 : σ)
    (hpre : allBatches m pre sInit = ⟨tp, op, s0, none⟩)
    (h1 : m.dispatch .begin_batch (m.split b s0) = (s1, none))
    (h2 : m.dispatch .after_pred (m.forward s1) = (s2, some CancelBatchException))
    (h3 : m.dispatch .after_cancel_batch s2 = (s3, none))
    (h4 : m.dispatch .after_batch s3 = (s4, none)) :
    oneBatch m b s0 =
      ⟨[.begin_batch, .after_pred, .after_cancel_batch, .after_batch], [], s4, none⟩
    ∧ allBatches m (pre ++ b :: rest) sInit =
      ⟨tp ++ [.begin_batch, .after_pred, .after_cancel_batch, .after_batch]
          ++ (allBatches m rest s4).trace,
       op ++ (allBatches m rest s4).ops,
       (allBatches m rest s4).state, (allBatches m rest s4).exn⟩
    ∧ (rest ≠ [] → (allBatches m rest s4).trace.head? = some .begin_batch) := by
  have ht : tryBlock m b s0 =
      ⟨[.begin_batch, .after_pred], [], s2, some CancelBatchException⟩ := by
    simp [tryBlock, h1, h2]
  have hob : oneBatch m b s0 =
      ⟨[.begin_batch, .after_pred, .after_cancel_batch, .after_batch],
       [], s4, none⟩ := by
    simp [oneBatch, ht, h3, h4]
  refine ⟨hob, ?_, ?_⟩
  · rw [allBatches_append, hpre, andThen_of_exn_none _ _ rfl]
    simp only [allBatches]
    rw [hob, andThen_of_exn_none _ _ rfl]
    simp
  · intro hne
    rcases rest with _ | ⟨r, rs⟩
    · exact absurd rfl hne
    · exact allBatches_cons_trace_head m r rs s4

/-- C1 witness: with a machine cancelling every batch at after_pred, batch 3
of 5 (two earlier batches, two later) shows the cancelled-batch sequence and
the continuation into batch 4. -/
theorem c1_cancel_batch_skips_rest_witness :
    oneBatch mBC 2 0 =
      ⟨[.begin_batch, .after_pred, .after_cancel_batch, .after_batch], [], 0, none⟩
    ∧ allBatches mBC ([0, 1] ++ 2 :: [3, 4]) 0 =
      ⟨[.begin_batch, .after_pred, .after_cancel_batch, .after_batch,
        .begin_batch, .after_pred, .after_cancel_batch, .after_batch]
          ++ [.begin_batch, .after_pred, .after_cancel_batch, .after_batch]
          ++ (allBatches mBC [3, 4] 0).trace,
       [] ++ (allBatches mBC [3, 4] 0).ops,
       (allBatches mBC [3, 4] 0).state, (allBatches mBC [3, 4] 0).exn⟩
    ∧ ([3, 4] ≠ ([] : List Nat) →
        (allBatches mBC [3, 4] 0).trace.head? = some .begin_batch) :=
  c1_cancel_batch_skips_rest mBC [0, 1] [3, 4] 2 0 0
    [.begin_batch, .after_pred, .after_cancel_batch, .after_batch,
     .begin_batch, .after_pred, .after_cancel_batch, .after_batch]
    [] 0 0 0 0 rfl rfl rfl rfl rfl

/-- C9: a batch processed with the training flag false returns right after
the after_loss event, so after_backward and after_step never fire and the
optimizer is untouched, yet the finally clause still fires after_batch; and
for every machine and batch, after_batch occurs exactly once in the per-batch
trace, whatever the exit path. -/
theorem c9_validation_return_after_batch_once {σ2 : Type}
    (m : Mach σ) (m2 : Mach σ2) (b b2 : Nat) (s0 : σ) (sv : σ2)
    (s1 s2 s3 s4 : σ)
    (h1 : m.dispatch .begin_batch (m.split b s0) = (s1, none))
    (h2 : m.dispatch .after_pred (m.forward s1) = (s2, none))
    (h3 : m.dispatch .after_loss (m.computeLoss s2) = (s3, none))
    (htr : m.training s3 = false)
    (h4 : m.dispatch .after_batch s3 = (s4, none)) :
    oneBatch m b s0 =
      ⟨[.begin_batch, .after_pred, .after_loss, .after_batch], [], s4, none⟩
    ∧ ((oneBatch m2 b2 sv).trace).count .after_batch = 1 := by
  have ht : tryBlock m b s0 =
      ⟨[.begin_batch, .after_pred, .after_loss], [], s3, none⟩ := by
    simp [tryBlock, h1, h2, h3, htr]
  exact ⟨by simp [oneBatch, ht, h4, CancelBatchException],
         oneBatch_count_after_batch m2 b2 sv⟩

/-- C9 witness: a validation-mode machine exhibits the early-return trace,
and a machine cancelling at after_pred still fires after_batch exactly
once. -/
theorem c9_validation_return_after_batch_once_witness :
    oneBatch mVal 0 0 =
      ⟨[.begin_batch, .after_pred, .after_loss, .after_batch], [], 0, none⟩
    ∧ ((oneBatch mBC 0 0).trace).count .after_batch = 1 :=
  c9_validation_return_after_batch_once mVal mBC 0 0 0 0 0 0 0 0
    rfl rfl rfl rfl rfl

/-- C10: if an exception aborts the try-block of a batch before after_step
fired (that is, it was raised during begin_batch, after_pred, after_loss or
after_backward), then neither opt.step nor opt.zero_grad ran for that batch:
the parameters were not updated and the gradients were not cleared by that
batch's processing. -/
theorem c10_no_opt_ops_before_step (m : Mach σ) (b : Nat) (s : σ) (ex : Exn)
    (hex : (tryBlock m b s).exn = some ex)
    (hstep : Event.after_step ∉ (tryBlock m b s).trace) :
    (tryBlock m b s).ops = [] ∧ (oneBatch m b s).ops = []
    ∧ OptOp.step ∉ (oneBatch m b s).ops
    ∧ OptOp.zeroGrad ∉ (oneBatch m b s).ops := by
  have hops : (tryBlock m b s).ops = [] := by
    revert hex hstep
    unfold tryBlock
    repeat' split
    all_goals intro hex hstep
    all_goals first
      | rfl
      | exact absurd (by simp) hstep
  have hops2 : (oneBatch m b s).ops = [] := by
    rw [oneBatch_ops_eq, hops]
  refine ⟨hops, hops2, ?_, ?_⟩ <;> simp [hops2]

/-- C3 counterexample: a handler raising an unrecognized exception at
after_pred does propagate it to the caller, but the finally clause of the
per-batch source still fires after_batch after the raise — refuting the
claim that no further events fire, including boundary events such as
after_batch. -/
theorem c3_counterexample_after_batch_still_fires :
    (oneBatch mOther 0 0).exn = some (Exn.other 7)
    ∧ (oneBatch mOther 0 0).trace = [.begin_batch, .after_pred, .after_batch]
    ∧ Event.after_batch ∈ (oneBatch mOther 0 0).trace :=
  ⟨rfl, rfl, by decide⟩

/-- C3 amended: an unrecognized exception raised by a handler propagates
uncaught to the caller and the run aborts with no recovery events and no
after_fit; however the finally clause still fires the current batch's
after_batch boundary event before the exception propagates. -/
theorem c3_amended_unrecognized_propagates (m : Mach σ) (b : Nat) (s0 : σ)
    (c : Nat) (sf : σ) (eps : List EpochSpec) (r0 s1 : σ)
    (t : List Event) (o : List OptOp) (s2 : σ) (c2 : Nat)
    (ha1 : (tryBlock m b s0).exn = some (Exn.other c))
    (ha2 : m.dispatch .after_batch (tryBlock m b s0).state = (sf, none))
    (hb1 : m.dispatch .begin_fit r0 = (s1, none))
    (hb2 : allEpochs m eps s1 = ⟨t, o, s2, some (Exn.other c2)⟩) :
    oneBatch m b s0 =
      ⟨(tryBlock m b s0).trace ++ [.after_batch], (tryBlock m b s0).ops,
       sf, some (Exn.other c)⟩
    ∧ fitRun m eps r0 = ⟨.begin_fit :: t, o, s2, some (Exn.other c2)⟩ := by
  constructor
  · simp [oneBatch, ha1, ha2, CancelBatchException]
  · simp [fitRun, phase, hb1, hb2, CancelFitException]

/-- C3 amended witness: the machine raising an unrecognized exception at
after_pred exhibits both the batch-level finally behavior and the fit-level
propagation with no after_fit. -/
theorem c3_amended_unrecognized_propagates_witness :
    oneBatch mOther 0 0 =
      ⟨(tryBlock mOther 0 0).trace ++ [.after_batch], (tryBlock mOther 0 0).ops,
       0, some (Exn.other 7)⟩
    ∧ fitRun mOther [([0], [])] 0 =
      ⟨.begin_fit :: [.begin_epoch, .begin_train, .begin_batch, .after_pred,
                      .after_batch],
       [], 0, some (Exn.other 7)⟩ :=
  c3_amended_unrecognized_propagates mOther 0 0 7 0 [([0], [])] 0 0
    [.begin_epoch, .begin_train, .begin_batch, .after_pred, .after_batch]
    [] 0 7 rfl rfl rfl rfl

/-- C8: if CancelFitException escapes an epoch (after any number of earlier
epochs completed normally), the remaining epochs never run, the events
after_cancel_fit and then after_fit fire, and the run ends normally with the
exception absorbed. -/
theorem c8_cancel_fit_ends_run (m : Mach σ) (pre rest : List EpochSpec)
    (ep : EpochSpec) (s0 s1 : σ) (tp : List Event) (op : List OptOp) (sp : σ)
    (te : List Event) (oe : List OptOp) (se s3 s4 : σ)
    (h0 : m.dispatch .begin_fit s0 = (s1, none))
    (h1 : allEpochs m pre s1 = ⟨tp, op, sp, none⟩)
    (h2 : oneEpoch m ep.1 ep.2 sp = ⟨te, oe, se, some CancelFitException⟩)
    (h3 : m.dispatch .after_cancel_fit se = (s3, none))
    (h4 : m.dispatch .after_fit s3 = (s4, none)) :
    fitRun m (pre ++ ep :: rest) s0 =
      ⟨.begin_fit :: (tp ++ te ++ [.after_cancel_fit, .after_fit]),
       op ++ oe, s4, none⟩ := by
  have hinner : allEpochs m (ep :: rest) sp =
      ⟨te, oe, se, some CancelFitException⟩ := by
    simp only [allEpochs]
    rw [h2, andThen_of_exn_some _ _ CancelFitException rfl]
  have hae : allEpochs m (pre ++ ep :: rest) s1 =
      ⟨tp ++ te, op ++ oe, se, some CancelFitException⟩ := by
    rw [allEpochs_append, h1, andThen_of_exn_none _ _ rfl]
    simp [hinner]
  simp [fitRun, phase, h0, hae, h3, h4, CancelFitException]

/-- C8 witness: with the epoch-counting machine, CancelFitException raised
during after_loss of epoch 2 of 10 (one completed epoch before, eight never
run) produces after_cancel_fit then after_fit and ends the run. -/
theorem c8_cancel_fit_ends_run_witness :
    fitRun mFit (([([0], [0])] : List EpochSpec)
        ++ (([0], [0]) : EpochSpec) :: List.replicate 8 (([0], [0]) : EpochSpec))
      (0, false) =
      ⟨.begin_fit ::
        ([.begin_epoch, .begin_train, .begin_batch, .after_pred, .after_loss,
          .after_backward, .after_step, .after_batch, .after_train,
          .begin_validate, .begin_batch, .after_pred, .after_loss,
          .after_batch, .after_validate, .after_epoch]
         ++ [.begin_epoch, .begin_train, .begin_batch, .after_pred,
             .after_loss, .after_batch]
         ++ [.after_cancel_fit, .after_fit]),
       [.step, .zeroGrad] ++ [], (2, true), none⟩ :=
  c8_cancel_fit_ends_run mFit [([0], [0])] (List.replicate 8 ([0], [0]))
    ([0], [0]) (0, false) (0, false)
    [.begin_epoch, .begin_train, .begin_batch, .after_pred, .after_loss,
     .after_backward, .after_step, .after_batch, .after_train,
     .begin_validate, .begin_batch, .after_pred, .after_loss, .after_batch,
     .after_validate, .after_epoch]
    [.step, .zeroGrad] (1, false)
    [.begin_epoch, .begin_train, .begin_batch, .after_pred, .after_loss,
     .after_batch]
    [] (2, true) (2, true) (2, true) rfl rfl rfl rfl rfl

theorem dispatchList_cons_none (hs : Nat → Option (σ → σ × Option Exn))
    (a : Nat) (cs : List Nat) (s : σ) (h : hs a = none) :
    dispatchList hs (a :: cs) s = dispatchList hs cs s := by
  simp [dispatchList, h]

theorem dispatchList_cons_raise (hs : Nat → Option (σ → σ × Option Exn))
    (a : Nat) (cs : List Nat) (s : σ) (g : σ → σ × Option Exn) (s1 : σ)
    (e : Exn) (h : hs a = some g) (hg : g s = (s1, some e)) :
    dispatchList hs (a :: cs) s = ([a], s1, some e) := by
  simp [dispatchList, h, hg]

theorem dispatchList_cons_ok (hs : Nat → Option (σ → σ × Option Exn))
    (a : Nat) (cs : List Nat) (s : σ) (g : σ → σ × Option Exn) (s1 : σ)
    (h : hs a = some g) (hg : g s = (s1, none)) :
    dispatchList hs (a :: cs) s =
      (a :: (dispatchList hs cs s1).1, (dispatchList hs cs s1).2.1,
       (dispatchList hs cs s1).2.2) := by
  simp [dispatchList, h, hg]

/-- C7: if the handler of callback c raises during dispatch of an event,
after the callbacks in pre ran without raising, then dispatch stops at c
(the callbacks in post are never invoked), the exception propagates out of
the dispatcher, and the effects of the handlers already invoked are kept:
the final state is exactly the one c's handler produced on top of pre's
result, with no rollback. -/
theorem c7_dispatch_stops_propagates_no_rollback
    (hs : Nat → Option (σ → σ × Option Exn)) (pre post : List Nat)
    (c : Nat) (s0 s1 s2 : σ) (tr : List Nat)
    (f : σ → σ × Option Exn) (ex : Exn)
    (hpre : dispatchList hs pre s0 = (tr, s1, none))
    (hc : hs c = some f) (hf : f s1 = (s2, some ex)) :
    dispatchList hs (pre ++ c :: post) s0 = (tr ++ [c], s2, some ex) := by
  induction pre generalizing s0 tr with
  | nil =>
      simp only [dispatchList] at hpre
      injection hpre with ht hrest
      injection hrest with hst _
      subst ht
      subst hst
      simp [dispatchList, hc, hf]
  | cons a pre ih =>
      rw [List.cons_append]
      cases ha : hs a with
      | none =>
          rw [dispatchList_cons_none hs a pre s0 ha] at hpre
          rw [dispatchList_cons_none hs a (pre ++ c :: post) s0 ha]
          exact ih s0 tr hpre
      | some g =>
          rcases hg : g s0 with ⟨sg, rg⟩
          rcases rg with _ | e2
          · rw [dispatchList_cons_ok hs a pre s0 g sg ha hg] at hpre
            rw [dispatchList_cons_ok hs a (pre ++ c :: post) s0 g sg ha hg]
            injection hpre with ht hrest
            injection hrest with hst hexn
            have hr : dispatchList hs pre sg =
                ((dispatchList hs pre sg).1, s1, none) := by
              rw [← hst, ← hexn]
            have hres := ih sg (dispatchList hs pre sg).1 hr
            rw [hres, ← ht]
            simp
          · rw [dispatchList_cons_raise hs a pre s0 g sg e2 ha hg] at hpre
            injection hpre with _ hrest
            injection hrest with _ hexn
            exact absurd hexn (by simp)

/-- C7 witness: with callbacks 1 and 2 incrementing the state and callback 9
raising an Epoch signal, dispatching over order 1, 2, 9, 3, 4 invokes only
1, 2, 9, keeps the two increments, and propagates the signal. -/
theorem c7_dispatch_stops_propagates_no_rollback_witness :
    dispatchList hsC7 ([1, 2] ++ 9 :: [3, 4]) 0 =
      ([1, 2] ++ [9], 2, some (.signal .Epoch)) :=
  c7_dispatch_stops_propagates_no_rollback hsC7 [1, 2] [3, 4] 9 0 2 2
    [1, 2] fC7 (.signal .Epoch) rfl rfl rfl

/-- C5: reading a field with no local definition on the callback forwards to
the shared state, including a value written into the state earlier in the
same dispatch through the explicit state reference; a bare local assignment
on the callback leaves the shared state unchanged, so another callback still
reads the old value while the assigning callback now reads its shadow field;
an assignment through the explicit state reference changes the shared value
seen by every callback. -/
theorem c5_read_forwarding_write_asymmetry (cb cb2 : CbObj) (st : TState)
    (n : String) (v : Nat)
    (h : cb.locals n = none) (h2 : cb2.locals n = none) :
    cbGet cb st n = st n
    ∧ cbGet cb (stateSet st n v) n = v
    ∧ (bareAssign cb st n v).2 n = st n
    ∧ cbGet cb2 (bareAssign cb st n v).2 n = st n
    ∧ cbGet (bareAssign cb st n v).1 (bareAssign cb st n v).2 n = v
    ∧ stateSet st n v n = v
    ∧ cbGet cb2 (stateSet st n v) n = v := by
  refine ⟨?_, ?_, rfl, ?_, ?_, ?_, ?_⟩ <;>
    simp [cbGet, stateSet, bareAssign, h, h2]

/-- C5 witness: concrete callback objects with no local fields over a zeroed
state, field "loss", value 7. -/
theorem c5_read_forwarding_write_asymmetry_witness :
    cbGet cb0 st0 "loss" = st0 "loss"
    ∧ cbGet cb0 (stateSet st0 "loss" 7) "loss" = 7
    ∧ (bareAssign cb0 st0 "loss" 7).2 "loss" = st0 "loss"
    ∧ cbGet cb0 (bareAssign cb0 st0 "loss" 7).2 "loss" = st0 "loss"
    ∧ cbGet (bareAssign cb0 st0 "loss" 7).1 (bareAssign cb0 st0 "loss" 7).2 "loss" = 7
    ∧ stateSet st0 "loss" 7 "loss" = 7
    ∧ cbGet cb0 (stateSet st0 "loss" 7) "loss" = 7 :=
  c5_read_forwarding_write_asymmetry cb0 cb0 st0 "loss" 7 rfl rfl

/-- C6: the batch input and target are stored as tuples, written only in
tuple form; the derived view of a one-element tuple is its sole element, the
view of a tuple with more than one element is the tuple itself unchanged,
and writing the tuple form updates the derived view. -/
theorem c6_dual_form_batch_fields :
    (∀ v : Val, detuplify [v] = v)
    ∧ (∀ (a b : Val) (t : List Val),
        detuplify (a :: b :: t) = Val.tup (a :: b :: t))
    ∧ (∀ (s : BatchState) (t : List Val),
        x (setXb s t) = detuplify t ∧ (setXb s t).xb = t)
    ∧ (∀ (s : BatchState) (t : List Val),
        y (setYb s t) = detuplify t ∧ (setYb s t).yb = t) :=
  ⟨fun _ => rfl, fun _ _ _ => rfl,
   fun _ _ => ⟨rfl, rfl⟩, fun _ _ => ⟨rfl, rfl⟩⟩

theorem kahn_cons (edges : List (Nat × Nat)) (n : Nat) (z : Nat)
    (rest : List Nat) :
    kahn edges (n + 1) (z :: rest) =
      match pickSrc edges (z :: rest) with
      | none => none
      | some w => (kahn edges n ((z :: rest).erase w)).map (w :: ·) := rfl

theorem pickSrc_spec (edges : List (Nat × Nat)) (rem : List Nat) (w : Nat)
    (h : pickSrc edges rem = some w) :
    w ∈ rem ∧ ∀ z ∈ rem, (z, w) ∉ edges := by
  refine ⟨List.mem_of_find?_eq_some h, ?_⟩
  have hp := List.find?_some h
  rw [Bool.not_eq_true'] at hp
  unfold hasPred at hp
  rw [List.any_eq_false] at hp
  intro z hz hzw
  have := hp z hz
  simp at this
  exact this hzw

theorem kahn_sound (edges : List (Nat × Nat)) :
    ∀ (fuel : Nat) (rem ord : List Nat),
      kahn edges fuel rem = some ord →
      ∀ a b, (a, b) ∈ edges → a ∈ rem → b ∈ rem →
        ord.indexOf a < ord.indexOf b := by
  intro fuel
  induction fuel with
  | zero =>
      intro rem ord hk a b hab ha hb
      cases rem with
      | nil => simp at ha
      | cons z rest => simp [kahn] at hk
  | succ n ih =>
      intro rem ord hk a b hab ha hb
      cases rem with
      | nil => simp at ha
      | cons z rest =>
        rw [kahn_cons] at hk
        rcases hps : pickSrc edges (z :: rest) with _ | w
        · rw [hps] at hk
          simp at hk
        · rw [hps] at hk
          simp only [Option.map_eq_some'] at hk
          obtain ⟨ord', hk', rfl⟩ := hk
          obtain ⟨hwmem, hwsrc⟩ := pickSrc_spec edges (z :: rest) w hps
          by_cases hbw : b = w
          · subst hbw
            exact absurd hab (hwsrc a ha)
          · by_cases haw : a = w
            · subst haw
              rw [List.indexOf_cons_self, List.indexOf_cons_ne _ (Ne.symm hbw)]
              exact Nat.succ_pos _
            · have ha' : a ∈ (z :: rest).erase w :=
                (List.mem_erase_of_ne haw).2 ha
              have hb' : b ∈ (z :: rest).erase w :=
                (List.mem_erase_of_ne hbw).2 hb
              have := ih ((z :: rest).erase w) ord' hk' a b hab ha' hb'
              rw [List.indexOf_cons_ne _ (Ne.symm haw),
                List.indexOf_cons_ne _ (Ne.symm hbw)]
              exact Nat.succ_lt_succ this

theorem edgesOf_mem (cbs : List CB) (a b : Nat) (h : (a, b) ∈ edgesOf cbs) :
    a ∈ idsOf cbs ∧ b ∈ idsOf cbs := by
  unfold edgesOf at h
  rw [List.mem_flatten] at h
  obtain ⟨l, hl, hab⟩ := h
  rw [List.mem_map] at hl
  obtain ⟨c, hc, rfl⟩ := hl
  rw [List.mem_append] at hab
  rcases hab with h1 | h1 <;> rw [List.mem_map] at h1
  · obtain ⟨v, hv, heq⟩ := h1
    rw [List.mem_filter] at hv
    injection heq with e1 e2
    subst e1; subst e2
    exact ⟨List.mem_map_of_mem _ hc, by simpa using hv.2⟩
  · obtain ⟨v, hv, heq⟩ := h1
    rw [List.mem_filter] at hv
    injection heq with e1 e2
    subst e1; subst e2
    exact ⟨by simpa using hv.2, List.mem_map_of_mem _ hc⟩

theorem resolve_sound (cbs : List CB) (ord : List Nat)
    (h : resolve cbs = some ord) (a b : Nat)
    (hab : (a, b) ∈ edgesOf cbs) :
    ord.indexOf a < ord.indexOf b := by
  obtain ⟨ha, hb⟩ := edgesOf_mem cbs a b hab
  exact kahn_sound (edgesOf cbs) cbs.length (idsOf cbs) ord h a b hab ha hb

theorem resolve_sound_tc (cbs : List CB) (ord : List Nat)
    (h : resolve cbs = some ord) (a b : Nat)
    (hab : Relation.TransGen (edgeRel cbs) a b) :
    ord.indexOf a < ord.indexOf b := by
  induction hab with
  | single h1 => exact resolve_sound cbs ord h _ _ h1
  | tail _ h1 ih => exact lt_trans ih (resolve_sound cbs ord h _ _ h1)

theorem resolve_cyclic_none (cbs : List CB) (a : Nat)
    (hcyc : Relation.TransGen (edgeRel cbs) a a) : resolve cbs = none := by
  cases hres : resolve cbs with
  | none => rfl
  | some ord =>
      exact absurd (resolve_sound_tc cbs ord hres a a hcyc) (lt_irrefl _)

theorem exists_src_finset (R : Nat → Nat → Prop)
    (hirr : ∀ a, ¬ Relation.TransGen R a a) :
    ∀ S : Finset Nat, S.Nonempty → ∃ z ∈ S, ∀ w ∈ S, ¬ R w z := by
  classical
  intro S
  induction S using Finset.strongInduction with
  | _ S ih =>
    intro hS
    obtain ⟨a, ha⟩ := hS
    by_cases hsrc : ∀ w ∈ S, ¬ R w a
    · exact ⟨a, ha, hsrc⟩
    · push_neg at hsrc
      obtain ⟨w0, hw0, hR⟩ := hsrc
      have hPne : (S.filter fun u => Relation.TransGen R u a).Nonempty :=
        ⟨w0, Finset.mem_filter.2 ⟨hw0, Relation.TransGen.single hR⟩⟩
      have hPsub : (S.filter fun u => Relation.TransGen R u a) ⊂ S := by
        refine (Finset.ssubset_iff_of_subset (Finset.filter_subset _ _)).2 ?_
        exact ⟨a, ha, fun hmem => hirr a (Finset.mem_filter.1 hmem).2⟩
      obtain ⟨z, hzP, hz⟩ := ih _ hPsub hPne
      refine ⟨z, (Finset.filter_subset _ _) hzP, ?_⟩
      intro w hw hRwz
      have hz_tc : Relation.TransGen R z a := (Finset.mem_filter.1 hzP).2
      have hw_tc : Relation.TransGen R w a := Relation.TransGen.head hRwz hz_tc
      exact hz w (Finset.mem_filter.2 ⟨hw, hw_tc⟩) hRwz

theorem exists_src_list (R : Nat → Nat → Prop)
    (hirr : ∀ a, ¬ Relation.TransGen R a a)
    (rem : List Nat) (hne : rem ≠ []) :
    ∃ z ∈ rem, ∀ w ∈ rem, ¬ R w z := by
  have hS : rem.toFinset.Nonempty := by
    rcases rem with _ | ⟨r, rs⟩
    · exact absurd rfl hne
    · exact ⟨r, by simp⟩
  obtain ⟨z, hz, hmin⟩ := exists_src_finset R hirr rem.toFinset hS
  exact ⟨z, by simpa using hz, fun w hw => hmin w (by simpa using hw)⟩

theorem pickSrc_of_acyclic (edges : List (Nat × Nat)) (rem : List Nat)
    (hne : rem ≠ [])
    (hirr : ∀ a, ¬ Relation.TransGen (fun u v => (u, v) ∈ edges) a a) :
    ∃ w, pickSrc edges rem = some w := by
  obtain ⟨z, hz, hmin⟩ := exists_src_list _ hirr rem hne
  have hsome : (rem.find? fun u => ! hasPred edges rem u).isSome := by
    rw [List.find?_isSome]
    refine ⟨z, hz, ?_⟩
    rw [Bool.not_eq_true']
    unfold hasPred
    rw [List.any_eq_false]
    intro u hu
    simp
    exact hmin u hu
  rw [Option.isSome_iff_exists] at hsome
  exact hsome

theorem kahn_complete (edges : List (Nat × Nat))
    (hirr : ∀ a, ¬ Relation.TransGen (fun u v => (u, v) ∈ edges) a a) :
    ∀ (n : Nat) (rem : List Nat), rem.length = n →
      ∃ ord, kahn edges n rem = some ord := by
  intro n
  induction n with
  | zero =>
      intro rem hlen
      rw [List.length_eq_zero] at hlen
      subst hlen
      exact ⟨[], rfl⟩
  | succ k ih =>
      intro rem hlen
      cases rem with
      | nil => exact ⟨[], rfl⟩
      | cons z rest =>
        obtain ⟨w, hw⟩ := pickSrc_of_acyclic edges (z :: rest) (by simp) hirr
        have hwmem : w ∈ z :: rest := (pickSrc_spec edges _ w hw).1
        have hlen' : ((z :: rest).erase w).length = k := by
          rw [List.length_erase_of_mem hwmem]
          omega
        obtain ⟨ord', hord'⟩ := ih ((z :: rest).erase w) hlen'
        refine ⟨w :: ord', ?_⟩
        rw [kahn_cons, hw]
        simp [hord']

theorem resolve_complete (cbs : List CB) (hA : Acyclic cbs) :
    ∃ ord, resolve cbs = some ord := by
  unfold resolve
  exact kahn_complete (edgesOf cbs) hA cbs.length (idsOf cbs)
    (by simp [idsOf])

theorem kahn_no_edges : ∀ (n : Nat) (rem : List Nat), rem.length = n →
    kahn [] n rem = some rem := by
  intro n
  induction n with
  | zero =>
      intro rem hlen
      rw [List.length_eq_zero] at hlen
      subst hlen
      rfl
  | succ k ih =>
      intro rem hlen
      cases rem with
      | nil => rfl
      | cons z rest =>
        have hps : pickSrc [] (z :: rest) = some z := by
          simp [pickSrc, hasPred]
        rw [kahn_cons, hps]
        have herase : (z :: rest).erase z = rest := by
          simp
        simp [herase, ih rest (by simpa using hlen)]

theorem resolve_no_edges (cbs : List CB) (h : edgesOf cbs = []) :
    resolve cbs = some (idsOf cbs) := by
  unfold resolve
  rw [h]
  exact kahn_no_edges cbs.length (idsOf cbs) (by simp [idsOf])

theorem edgeRel_cbsAB (u v : Nat) : edgeRel cbsAB u v ↔ u = 1 ∧ v = 0 := by
  show (u, v) ∈ edgesOf cbsAB ↔ _
  rw [show edgesOf cbsAB = [(1, 0)] from rfl]
  simp [Prod.ext_iff]

theorem acyclic_cbsAB : Acyclic cbsAB := by
  intro a h
  have key : ∀ u v, Relation.TransGen (edgeRel cbsAB) u v → u = 1 ∧ v = 0 := by
    intro u v huv
    induction huv with
    | single h1 => exact (edgeRel_cbsAB _ _).1 h1
    | tail _ h1 ih =>
        have h2 := (edgeRel_cbsAB _ _).1 h1
        omega
  have := key a a h
  omega

/-- C2: for an acyclic constraint set, registry resolution succeeds, and in
the resolved order the source of every declared must-run-before edge appears
strictly before its target; resolution of the same input is the same value;
with no constraints the resolved order is exactly the registration order
(the stable tie-break); and in the end-to-end scenario the registration
[A (must run after B), B] resolves to [B, A] and dispatching begin_fit over
that order invokes B's handler before A's. -/
theorem c2_registry_resolution (cbs : List CB) (a b : Nat)
    (hA : Acyclic cbs) (hab : (a, b) ∈ edgesOf cbs) :
    (∃ ord, resolve cbs = some ord)
    ∧ ((resolve cbs).getD []).indexOf a < ((resolve cbs).getD []).indexOf b
    ∧ resolve cbs = resolve cbs
    ∧ (edgesOf cbs = [] → resolve cbs = some (idsOf cbs))
    ∧ resolve cbsAB = some [1, 0]
    ∧ (dispatchList hsBF [1, 0] 0).1 = [1, 0] := by
  obtain ⟨ord, hord⟩ := resolve_complete cbs hA
  refine ⟨⟨ord, hord⟩, ?_, rfl, resolve_no_edges cbs, rfl, rfl⟩
  rw [hord]
  exact resolve_sound cbs ord hord a b hab

/-- C2 witness: the scenario registration [A (must run after B), B] itself,
with its single constraint edge (B before A). -/
theorem c2_registry_resolution_witness :
    (∃ ord, resolve cbsAB = some ord)
    ∧ ((resolve cbsAB).getD []).indexOf 1 < ((resolve cbsAB).getD []).indexOf 0
    ∧ resolve cbsAB = resolve cbsAB
    ∧ (edgesOf cbsAB = [] → resolve cbsAB = some (idsOf cbsAB))
    ∧ resolve cbsAB = some [1, 0]
    ∧ (dispatchList hsBF [1, 0] 0).1 = [1, 0] :=
  c2_registry_resolution cbsAB 1 0 acyclic_cbsAB (by decide)

/-- C4: a cyclic constraint set is a fatal configuration error: resolution
fails with none, and the run never starts, with no event dispatched and no
training work done (setupAndFit is none, not a partial run). -/
theorem c4_cyclic_fails_before_run (cbs : List CB) (a : Nat)
    (mk : List Nat → Mach σ) (eps : List EpochSpec) (s0 : σ)
    (hcyc : Relation.TransGen (edgeRel cbs) a a) :
    resolve cbs = none ∧ setupAndFit cbs mk eps s0 = none := by
  have h := resolve_cyclic_none cbs a hcyc
  exact ⟨h, by simp [setupAndFit, h]⟩

/-- C4 witness: the concrete cycle A before B, B before A. -/
theorem c4_cyclic_fails_before_run_witness :
    resolve cbsCyc = none
    ∧ setupAndFit cbsCyc (fun _ => mBC) ([] : List EpochSpec) 0 = none :=
  c4_cyclic_fails_before_run cbsCyc 0 (fun _ => mBC) [] 0
    (Relation.TransGen.head (by decide : (0, 1) ∈ edgesOf cbsCyc)
      (Relation.TransGen.single (by decide : (1, 0) ∈ edgesOf cbsCyc)))

/-- C10 witness: a machine raising CancelBatchException at after_pred leaves
the optimizer untouched for the batch. -/
theorem c10_no_opt_ops_before_step_witness :
    (tryBlock mBC 0 0).ops = [] ∧ (oneBatch mBC 0 0).ops = []
    ∧ OptOp.step ∉ (oneBatch mBC 0 0).ops
    ∧ OptOp.zeroGrad ∉ (oneBatch mBC 0 0).ops :=
  c10_no_opt_ops_before_step mBC 0 0 CancelBatchException rfl (by decide)

end FastbookCb
